import Mathlib

/-!
Verification of the cbzmerge page-renumbering tool (src/cbzmerge.py) against its
natural-language specification.  The Python source is shallowly embedded below:
pure string/number manipulations become Lean functions on `String`/`Nat`, the
fallible pipeline (`merge_cbz_files`) becomes a function into `Except` together
with ghost observables recording whether the temporary directory was removed and
whether an output file was created.
-/

namespace CbzMerge

/-- Decimal digit list of a natural number, most significant digit first.
Fuel-indexed helper so that the definition is structural and kernel-evaluable;
`fuel > n` always suffices. -/
def natToDigitsAux : Nat → Nat → List Char
  | 0, _ => []
  | fuel + 1, n =>
    if n < 10 then [Nat.digitChar n]
    else natToDigitsAux fuel (n / 10) ++ [Nat.digitChar (n % 10)]

/-- Decimal digit list of `n`, most significant first (model of Python decimal
formatting of a nonnegative integer). -/
def natToDigits (n : Nat) : List Char := natToDigitsAux (n + 1) n

/-- Characters of Python `f"{n:02d}"` for `n ≥ 0`: the decimal digits of `n`,
zero-padded on the left to a minimum width of 2. -/
def padDigits (n : Nat) : List Char := if n < 10 then '0' :: natToDigits n else natToDigits n

/-- Model of Python `f"{n:02d}"` for a nonnegative integer `n`. -/
def pad2 (n : Nat) : String := String.mk (padDigits n)

/-- Model of Python `s.endswith(suf)`. -/
def strEndsWith (s suf : String) : Bool := suf.data.isSuffixOf s.data

/-- Model of Python `s.lower()` restricted to the ASCII case mapping (the only
case mapping relevant to the ASCII extension strings compared against it). -/
def lowerStr (s : String) : String := String.mk (s.data.map Char.toLower)

/-- Filter from src/cbzmerge.py line 55:
`f.lower().endswith(('.jpg', '.jpeg', '.png', '.gif'))`. -/
def isImageFile (f : String) : Bool :=
  strEndsWith (lowerStr f) (".jpg") || strEndsWith (lowerStr f) (".jpeg") ||
    strEndsWith (lowerStr f) (".png") || strEndsWith (lowerStr f) (".gif")

/-- Model of Python `os.path.splitext` for a path with no directory separator:
split at the last dot, except that a basename consisting only of leading dots
has no extension (CPython genericpath._splitext). -/
def splitext (f : String) : String × String :=
  let rev := f.data.reverse
  let extRev := rev.takeWhile (fun c => c != '.')
  match rev.dropWhile (fun c => c != '.') with
  | [] => (f, String.mk [])
  | _ :: baseRest =>
    if baseRest.any (fun c => c != '.') then
      (String.mk baseRest.reverse, String.mk ('.' :: extRev.reverse))
    else (f, String.mk [])

/-- Codepoint ranges (inclusive) of the Unicode decimal digits, category Nd:
the exact set Python's `\d` matches in a `str` pattern compiled without
`re.ASCII`, as in src/cbzmerge.py line 12 (Unicode character database 14.0,
the version bundled with CPython 3.11; 660 codepoints in 62 runs). -/
def ndRanges : List (Nat × Nat) :=
  [(48, 57), (1632, 1641), (1776, 1785), (1984, 1993), (2406, 2415), (2534, 2543),
   (2662, 2671), (2790, 2799), (2918, 2927), (3046, 3055), (3174, 3183), (3302, 3311),
   (3430, 3439), (3558, 3567), (3664, 3673), (3792, 3801), (3872, 3881), (4160, 4169),
   (4240, 4249), (6112, 6121), (6160, 6169), (6470, 6479), (6608, 6617), (6784, 6793),
   (6800, 6809), (6992, 7001), (7088, 7097), (7232, 7241), (7248, 7257), (42528, 42537),
   (43216, 43225), (43264, 43273), (43472, 43481), (43504, 43513), (43600, 43609),
   (44016, 44025), (65296, 65305), (66720, 66729), (68912, 68921), (69734, 69743),
   (69872, 69881), (69942, 69951), (70096, 70105), (70384, 70393), (70736, 70745),
   (70864, 70873), (71248, 71257), (71360, 71369), (71472, 71481), (71904, 71913),
   (72016, 72025), (72784, 72793), (73040, 73049), (73120, 73129), (92768, 92777),
   (92864, 92873), (93008, 93017), (120782, 120831), (123200, 123209), (123632, 123641),
   (125264, 125273), (130032, 130041)]

/-- Python's `\d` character class for `str` patterns: any Unicode decimal
digit (category Nd), not only ASCII `0`-`9`. -/
def isPyDigit (c : Char) : Bool :=
  ndRanges.any (fun r => decide (r.1 ≤ c.toNat) && decide (c.toNat ≤ r.2))

/-- Deterministic recognizer for the regex `\d{2,4}-\d{2,4}\.jpg` anchored at
both ends of the character list: 2 to 4 decimal digits (Unicode, as Python's
`\d`), a hyphen, 2 to 4 such digits, then exactly `.jpg`.  Greedy digit
scanning is equivalent to the regex here because the characters following
each digit block (`-` and `.`) are not digits. -/
def matchCore (cs : List Char) : Bool :=
  let d1 := cs.takeWhile (fun c => isPyDigit c)
  match cs.dropWhile (fun c => isPyDigit c) with
  | [] => false
  | x :: r2 =>
    (x == '-') &&
      (decide (2 ≤ d1.length) && decide (d1.length ≤ 4) &&
        decide (2 ≤ (r2.takeWhile (fun c => isPyDigit c)).length) &&
        decide ((r2.takeWhile (fun c => isPyDigit c)).length ≤ 4) &&
        (r2.dropWhile (fun c => isPyDigit c) == ['.', 'j', 'p', 'g']))

/-- Model of `is_double_page` (src/cbzmerge.py lines 10-12):
`bool(re.match(r'^\d{2,4}-\d{2,4}\.jpg$', filename))`.  Python `$` matches at
the end of the string or just before a single trailing newline, hence the
second disjunct. -/
def is_double_page (filename : String) : Bool :=
  matchCore filename.data ||
    (match filename.data.getLast? with
     | some c => (c == '\n') && matchCore filename.data.dropLast
     | none => false)

/-- Lexicographic comparison of character lists by code point: Python string
`<=`. -/
def listLexLe : List Char → List Char → Bool
  | [], _ => true
  | _ :: _, [] => false
  | a :: as, b :: bs => if a = b then listLexLe as bs else decide (a < b)

/-- Python string comparison `a <= b` (lexicographic on code points). -/
def strLe (a b : String) : Bool := listLexLe a.data b.data

/-- `strLe` as a relation, for use with Mathlib's sorting lemmas. -/
def strLeRel (a b : String) : Prop := strLe a b = true

instance : DecidableRel strLeRel :=
  fun a b => inferInstanceAs (Decidable (strLe a b = true))

/-- Model of Python `sorted` on strings: a stable comparison sort under the
lexicographic order on code points.  Any correct sort of a list of strings
yields this result, since equal keys are identical strings. -/
def sortStr (l : List String) : List String := List.insertionSort strLeRel l

/-- src/cbzmerge.py line 41: sorted `.cbz` entries of the input directory. -/
def cbzFiles (listing : List String) : List String :=
  sortStr (listing.filter (fun f => strEndsWith f (".cbz")))

/-- src/cbzmerge.py line 55: sorted image entries of one extraction directory. -/
def imageFiles (listing : List String) : List String :=
  sortStr (listing.filter isImageFile)

/-- Inner loop of `merge_cbz_files` (src/cbzmerge.py lines 57-78): renumber the
given filenames starting from counter `c`; returns the staged output names in
order together with the final counter value. -/
def renumberList : Nat → List String → List String × Nat
  | c, [] => ([], c)
  | c, f :: fs =>
    if is_double_page f then
      let p := renumberList (c + 2) fs
      ((pad2 c ++ "-" ++ pad2 (c + 1) ++ (splitext f).2) :: p.1, p.2)
    else
      let p := renumberList (c + 1) fs
      ((pad2 c ++ (splitext f).2) :: p.1, p.2)

/-- Outer loop of `merge_cbz_files` (src/cbzmerge.py lines 50-78): fold over
the extraction directories, threading the global page counter (initial value 1)
and accumulating the staged output names (`files_to_export`). -/
def renumberAll (dirs : List (List String)) : List String × Nat :=
  dirs.foldl (fun acc l =>
    let p := renumberList acc.2 (imageFiles l)
    (acc.1 ++ p.1, p.2)) ([], 1)

/-- Staged output names of a whole merge.  `listing` is the input-directory
listing, `contents` gives the (non-recursive) listing of the extraction
directory of each `.cbz` file. -/
def mergeOutputNames (listing : List String) (contents : String → List String) : List String :=
  (renumberAll ((cbzFiles listing).map contents)).1

/-- Counter update of one loop iteration (lines 69 and 78). -/
def nextCounter (c : Nat) (f : String) : Nat := if is_double_page f then c + 2 else c + 1

/-- Staged output name of one loop iteration (lines 64 and 73). -/
def newName (c : Nat) (f : String) : String :=
  if is_double_page f then pad2 c ++ "-" ++ pad2 (c + 1) ++ (splitext f).2
  else pad2 c ++ (splitext f).2

/-- Ghost observer: the sequence of values the global page counter has when
each successive page is processed. -/
def counterVals : Nat → List String → List Nat
  | _, [] => []
  | c, f :: fs => c :: counterVals (nextCounter c f) fs

/-- The page stream of a merge: image files of each archive in sorted archive
order, sorted within each archive. -/
def mergeStream (listing : List String) (contents : String → List String) : List String :=
  (cbzFiles listing).flatMap (fun a => imageFiles (contents a))

/-- Counter values assigned across a whole merge. -/
def mergeCounterVals (listing : List String) (contents : String → List String) : List Nat :=
  counterVals 1 (mergeStream listing contents)

/-- Failures that the embedded pipeline can surface: `badArchive a` models an
uncaught `zipfile.BadZipFile` raised while unpacking archive `a` (line 20 of
src/cbzmerge.py), `emptyPdf` models the uncaught `IndexError` from
`images[0]` in `export_to_pdf` when no page was staged (line 32). -/
inductive MergeError where
  | badArchive : String → MergeError
  | emptyPdf : MergeError
deriving DecidableEq, Repr

/-- Environment of one run of `merge_cbz_files`: the input-directory listing,
for each archive either the listing of its extraction directory or a read
failure, and the `--pdf` flag. -/
structure MergeEnv where
  listing : List String
  members : String → Except Unit (List String)
  isPdf : Bool

/-- Observable outcome of one run of `merge_cbz_files`: the result (staged
output names on success, first uncaught exception otherwise), whether
`shutil.rmtree(tempdir)` on line 89 executed, and whether a file was created
at the output path. -/
structure MergeResult where
  result : Except MergeError (List String)
  tempdirRemoved : Bool
  outputCreated : Bool

/-- Loop of src/cbzmerge.py lines 45-47: unpack each archive in order; the
first unreadable archive raises, aborting the whole run. -/
def unpackAll (members : String → Except Unit (List String)) :
    List String → Except MergeError (List (List String))
  | [] => Except.ok []
  | a :: rest =>
    match members a with
    | Except.error _ => Except.error (MergeError.badArchive a)
    | Except.ok l =>
      match unpackAll members rest with
      | Except.error e => Except.error e
      | Except.ok ls => Except.ok (l :: ls)

/-- Model of `merge_cbz_files` (src/cbzmerge.py lines 34-92) as a whole run.
The temporary directory and `mergedir` are created unconditionally before
anything else (lines 36-38).  An exception anywhere propagates out of the
function, so `shutil.rmtree(tempdir)` (line 89) runs only on the success
path; in CBZ mode `zipfile.ZipFile(output_file, 'w')` (line 84) creates the
output file, in PDF mode the output is written by `images[0].save` (line 32),
which is only reached when at least one page was staged.  Image decoding and
I/O on staged pages are assumed to succeed (the spec declares image-content
validation a non-goal). -/
def merge_cbz_run (env : MergeEnv) : MergeResult :=
  match unpackAll env.members (cbzFiles env.listing) with
  | Except.error e => ⟨Except.error e, false, false⟩
  | Except.ok dirs =>
    let names := (renumberAll dirs).1
    if env.isPdf then
      if names.isEmpty then ⟨Except.error MergeError.emptyPdf, false, false⟩
      else ⟨Except.ok names, true, true⟩
    else ⟨Except.ok names, true, true⟩

/-- First path component of a zip member name: what `os.listdir` of the
extraction directory shows for this member after `extractall`. -/
def topComponent (m : String) : String := String.mk (m.data.takeWhile (fun c => c != '/'))

/-- Non-recursive listing of the extraction directory after
`zip_ref.extractall` (src/cbzmerge.py line 21): each member contributes only
its first path component, and duplicates appear once.  (`os.listdir` order is
unspecified; the merge sorts the listing before use, so the canonical order
chosen by `dedup` is irrelevant.) -/
def extractedListing (members : List String) : List String :=
  (members.map topComponent).dedup

/-- Whether the top-level entry `name` of the extraction directory is a
directory: some member lies strictly below it (its first path component is
`name` but the member is not `name` itself, e.g. `name/page.jpg` or the zip
directory marker `name/`). -/
def isDirEntry (members : List String) (name : String) : Bool :=
  members.any (fun m => (m != name) && (topComponent m == name))

/-- The renumber-and-copy loop of src/cbzmerge.py lines 57-78 over one
extraction directory, with the copy step made explicit: `shutil.copy`
(lines 67 and 76) raises `IsADirectoryError` when `original_page` is a
directory — which happens exactly when a selected listing entry is a
directory whose name matches the image-extension filter.  The first such
entry aborts the whole merge; `Except.error ()` models the propagating
exception. -/
def renumberListC (isDir : String → Bool) : Nat → List String → Except Unit (List String × Nat)
  | c, [] => Except.ok ([], c)
  | c, f :: fs =>
    if is_double_page f then
      if isDir f then Except.error ()
      else
        match renumberListC isDir (c + 2) fs with
        | Except.error e => Except.error e
        | Except.ok p => Except.ok ((pad2 c ++ "-" ++ pad2 (c + 1) ++ (splitext f).2) :: p.1, p.2)
    else
      if isDir f then Except.error ()
      else
        match renumberListC isDir (c + 1) fs with
        | Except.error e => Except.error e
        | Except.ok p => Except.ok ((pad2 c ++ (splitext f).2) :: p.1, p.2)

/-- The outer renumbering loop over the extraction directories, expressed on
the raw member lists: each directory's candidates are the sorted image-named
top-level entries of its extraction listing, and copying aborts everything at
an extension-named directory entry. -/
def renumberArchives : Nat → List (List String) → Except Unit (List String × Nat)
  | c, [] => Except.ok ([], c)
  | c, ms :: rest =>
    match renumberListC (fun n => isDirEntry ms n) c (imageFiles (extractedListing ms)) with
    | Except.error e => Except.error e
    | Except.ok p =>
      match renumberArchives p.2 rest with
      | Except.error e => Except.error e
      | Except.ok q => Except.ok (p.1 ++ q.1, q.2)

/-- A whole merge expressed over raw archive member lists, composing
`extractall` + `os.listdir` + the renumber-and-copy loop: either the list of
staged output names, or `Except.error ()` when the copy loop hits an
extension-named directory entry (`IsADirectoryError`, merge aborted, no
output written). -/
def mergeFromMembers (listing : List String) (mem : String → List String) :
    Except Unit (List String) :=
  match renumberArchives 1 ((cbzFiles listing).map mem) with
  | Except.error e => Except.error e
  | Except.ok p => Except.ok p.1

/-- The spec's double-spread pattern, written declaratively from §4.2 of the
spec: two blocks of 2 to 4 decimal digits (Python's `\d`, i.e. Unicode
category Nd) separated by a hyphen, followed by exactly `.jpg`. -/
def specSpreadShape (cs : List Char) : Prop :=
  ∃ d1 d2 : List Char,
    cs = d1 ++ '-' :: (d2 ++ ['.', 'j', 'p', 'g']) ∧
    (∀ c ∈ d1, isPyDigit c = true) ∧ 2 ≤ d1.length ∧ d1.length ≤ 4 ∧
    (∀ c ∈ d2, isPyDigit c = true) ∧ 2 ≤ d2.length ∧ d2.length ≤ 4

/-! ### Decimal digit lemmas -/

lemma natToDigitsAux_congr : ∀ f g n, n < f → n < g → natToDigitsAux f n = natToDigitsAux g n := by
  intro f
  induction f with
  | zero => intro g n h _; exact absurd h (Nat.not_lt_zero n)
  | succ f ih =>
    intro g n hf hg
    cases g with
    | zero => exact absurd hg (Nat.not_lt_zero n)
    | succ g =>
      by_cases h10 : n < 10
      · simp [natToDigitsAux, h10]
      · have hdiv : n / 10 < n := Nat.div_lt_self (by omega) (by omega)
        simp only [natToDigitsAux, if_neg h10]
        rw [ih g (n / 10) (by omega) (by omega)]

/-- Unfolding equation for `natToDigits`. -/
lemma natToDigits_eq (n : Nat) :
    natToDigits n = if n < 10 then [Nat.digitChar n]
      else natToDigits (n / 10) ++ [Nat.digitChar (n % 10)] := by
  by_cases h10 : n < 10
  · rw [if_pos h10]
    simp [natToDigits, natToDigitsAux, h10]
  · rw [if_neg h10]
    have hdiv : n / 10 < n := Nat.div_lt_self (by omega) (by omega)
    have h1 : natToDigitsAux (n + 1) n
        = natToDigitsAux n (n / 10) ++ [Nat.digitChar (n % 10)] := by
      simp [natToDigitsAux, h10]
    show natToDigitsAux (n + 1) n = natToDigitsAux (n / 10 + 1) (n / 10) ++ [Nat.digitChar (n % 10)]
    rw [h1, natToDigitsAux_congr n (n / 10 + 1) (n / 10) hdiv (Nat.lt_succ_self _)]

lemma digitChar_isDigit (m : Nat) (h : m < 10) : (Nat.digitChar m).isDigit = true := by
  interval_cases m <;> decide

lemma digitChar_ne_zeroChar (m : Nat) (h1 : 0 < m) (h2 : m < 10) : Nat.digitChar m ≠ '0' := by
  interval_cases m <;> decide

lemma digitChar_inj (a b : Nat) (ha : a < 10) (hb : b < 10)
    (h : Nat.digitChar a = Nat.digitChar b) : a = b := by
  interval_cases a <;> interval_cases b <;> first | rfl | exact absurd h (by decide)

lemma natToDigits_ne_nil (n : Nat) : natToDigits n ≠ [] := by
  rw [natToDigits_eq]
  by_cases h10 : n < 10 <;> simp [h10]

lemma natToDigits_aux_all_digit :
    ∀ fuel n, n < fuel → ∀ c ∈ natToDigits n, c.isDigit = true := by
  intro fuel
  induction fuel with
  | zero => intro n h; exact absurd h (Nat.not_lt_zero n)
  | succ fuel ih =>
    intro n hn c hc
    rw [natToDigits_eq] at hc
    by_cases h10 : n < 10
    · rw [if_pos h10] at hc
      simp only [List.mem_singleton] at hc
      subst hc
      exact digitChar_isDigit n h10
    · rw [if_neg h10] at hc
      have hdiv : n / 10 < n := Nat.div_lt_self (by omega) (by omega)
      rcases List.mem_append.mp hc with h1 | h2
      · exact ih (n / 10) (by omega) c h1
      · simp only [List.mem_singleton] at h2
        subst h2
        exact digitChar_isDigit _ (Nat.mod_lt _ (by omega))

lemma natToDigits_all_digit (n : Nat) : ∀ c ∈ natToDigits n, c.isDigit = true :=
  natToDigits_aux_all_digit (n + 1) n (Nat.lt_succ_self n)

lemma natToDigits_aux_head :
    ∀ fuel n, n < fuel → 0 < n → ∀ c, (natToDigits n).head? = some c → c ≠ '0' := by
  intro fuel
  induction fuel with
  | zero => intro n h; exact absurd h (Nat.not_lt_zero n)
  | succ fuel ih =>
    intro n hn hpos c hc
    rw [natToDigits_eq] at hc
    by_cases h10 : n < 10
    · rw [if_pos h10] at hc
      simp only [List.head?_cons, Option.some.injEq] at hc
      subst hc
      exact digitChar_ne_zeroChar n hpos h10
    · rw [if_neg h10] at hc
      obtain ⟨a, as, he⟩ := List.exists_cons_of_ne_nil (natToDigits_ne_nil (n / 10))
      rw [he] at hc
      simp only [List.cons_append, List.head?_cons, Option.some.injEq] at hc
      rw [← hc]
      have hdiv : n / 10 < n := Nat.div_lt_self (by omega) (by omega)
      exact ih (n / 10) (by omega) (by omega) a (by rw [he]; rfl)

lemma natToDigits_head_ne_zeroChar (n : Nat) (hpos : 0 < n) :
    ∀ c, (natToDigits n).head? = some c → c ≠ '0' :=
  natToDigits_aux_head (n + 1) n (Nat.lt_succ_self n) hpos

lemma natToDigits_length_le : ∀ k n, n < 10 ^ k → 0 < k → (natToDigits n).length ≤ k := by
  intro k
  induction k with
  | zero => intro n _ h0; exact absurd h0 (by omega)
  | succ k ih =>
    intro n h _
    rw [natToDigits_eq]
    by_cases h10 : n < 10
    · rw [if_pos h10]
      simp
    · rw [if_neg h10, List.length_append]
      have hk : 0 < k := by
        by_contra hk0
        have hkz : k = 0 := by omega
        subst hkz
        simp [pow_succ] at h
        omega
      have hd : n / 10 < 10 ^ k := by
        rw [Nat.div_lt_iff_lt_mul (by omega)]
        calc n < 10 ^ (k + 1) := h
        _ = 10 ^ k * 10 := by rw [pow_succ]
      have := ih (n / 10) hd hk
      simp only [List.length_singleton]
      omega

lemma natToDigits_length_ge_two (n : Nat) (h : 10 ≤ n) : 2 ≤ (natToDigits n).length := by
  rw [natToDigits_eq, if_neg (by omega), List.length_append]
  have := List.length_pos.mpr (natToDigits_ne_nil (n / 10))
  simp only [List.length_singleton]
  omega

lemma natToDigits_aux_inj : ∀ fuel a b, a < fuel → natToDigits a = natToDigits b → a = b := by
  intro fuel
  induction fuel with
  | zero => intro a b h; exact absurd h (Nat.not_lt_zero a)
  | succ fuel ih =>
    intro a b ha h
    have ea := natToDigits_eq a
    have eb := natToDigits_eq b
    rw [ea, eb] at h
    by_cases ha10 : a < 10 <;> by_cases hb10 : b < 10
    · rw [if_pos ha10, if_pos hb10] at h
      simp only [List.cons.injEq, and_true] at h
      exact digitChar_inj a b ha10 hb10 h
    · rw [if_pos ha10, if_neg hb10] at h
      have hlen := congrArg List.length h
      have hp := List.length_pos.mpr (natToDigits_ne_nil (b / 10))
      simp only [List.length_singleton, List.length_append] at hlen
      omega
    · rw [if_neg ha10, if_pos hb10] at h
      have hlen := congrArg List.length h
      have hp := List.length_pos.mpr (natToDigits_ne_nil (a / 10))
      simp only [List.length_singleton, List.length_append] at hlen
      omega
    · rw [if_neg ha10, if_neg hb10] at h
      obtain ⟨hpre, hsuf⟩ := List.append_inj' h rfl
      simp only [List.cons.injEq, and_true] at hsuf
      have hmod : a % 10 = b % 10 :=
        digitChar_inj _ _ (Nat.mod_lt _ (by omega)) (Nat.mod_lt _ (by omega)) hsuf
      have hdiva : a / 10 < a := Nat.div_lt_self (by omega) (by omega)
      have hdiv : a / 10 = b / 10 := ih (a / 10) (b / 10) (by omega) hpre
      omega

lemma natToDigits_inj (a b : Nat) (h : natToDigits a = natToDigits b) : a = b :=
  natToDigits_aux_inj (a + 1) a b (Nat.lt_succ_self a) h

/-! ### `padDigits` / `pad2` lemmas -/

lemma padDigits_all_digit (n : Nat) : ∀ c ∈ padDigits n, c.isDigit = true := by
  intro c hc
  unfold padDigits at hc
  by_cases h10 : n < 10
  · rw [if_pos h10] at hc
    rcases List.mem_cons.mp hc with h | h
    · subst h; decide
    · exact natToDigits_all_digit n c h
  · rw [if_neg h10] at hc
    exact natToDigits_all_digit n c hc

lemma padDigits_ne_nil (n : Nat) : padDigits n ≠ [] := by
  unfold padDigits
  by_cases h10 : n < 10
  · simp [h10]
  · simp [h10, natToDigits_ne_nil]

lemma padDigits_inj (a b : Nat) (h : padDigits a = padDigits b) : a = b := by
  unfold padDigits at h
  by_cases ha10 : a < 10 <;> by_cases hb10 : b < 10
  · rw [if_pos ha10, if_pos hb10] at h
    simp only [List.cons.injEq, true_and] at h
    exact natToDigits_inj a b h
  · rw [if_pos ha10, if_neg hb10] at h
    have h0 : (natToDigits b).head? = some '0' := by rw [← h]; rfl
    exact absurd rfl (natToDigits_head_ne_zeroChar b (by omega) '0' h0)
  · rw [if_neg ha10, if_pos hb10] at h
    have h0 : (natToDigits a).head? = some '0' := by rw [h]; rfl
    exact absurd rfl (natToDigits_head_ne_zeroChar a (by omega) '0' h0)
  · rw [if_neg ha10, if_neg hb10] at h
    exact natToDigits_inj a b h

lemma natToDigits_length_eq_one (n : Nat) (h : n < 10) : (natToDigits n).length = 1 := by
  rw [natToDigits_eq, if_pos h]
  rfl

lemma padDigits_length_ge_two (n : Nat) : 2 ≤ (padDigits n).length := by
  unfold padDigits
  by_cases h10 : n < 10
  · rw [if_pos h10]
    have := List.length_pos.mpr (natToDigits_ne_nil n)
    simp only [List.length_cons]
    omega
  · rw [if_neg h10]
    exact natToDigits_length_ge_two n (by omega)

lemma padDigits_length_le_four (n : Nat) (h : n < 10000) : (padDigits n).length ≤ 4 := by
  unfold padDigits
  by_cases h10 : n < 10
  · rw [if_pos h10]
    simp [natToDigits_length_eq_one n h10]
  · rw [if_neg h10]
    exact natToDigits_length_le 4 n (by norm_num; omega) (by omega)

/-! ### String plumbing -/

lemma strData_append (s t : String) : (s ++ t).data = s.data ++ t.data := by
  cases s
  cases t
  rfl

/-! ### The sort relation is a total preorder with antisymmetry -/

lemma listLexLe_total : ∀ as bs : List Char, listLexLe as bs = true ∨ listLexLe bs as = true := by
  intro as
  induction as with
  | nil => intro bs; left; rfl
  | cons a as ih =>
    intro bs
    cases bs with
    | nil => right; rfl
    | cons b bs =>
      by_cases hab : a = b
      · subst hab
        rcases ih bs with h | h
        · left; simp [listLexLe, h]
        · right; simp [listLexLe, h]
      · rcases lt_trichotomy a b with hlt | heq | hgt
        · left; simp [listLexLe, hab, hlt]
        · exact absurd heq hab
        · right; simp [listLexLe, Ne.symm hab, hgt]

lemma listLexLe_trans : ∀ as bs cs : List Char,
    listLexLe as bs = true → listLexLe bs cs = true → listLexLe as cs = true := by
  intro as
  induction as with
  | nil => intro bs cs _ _; rfl
  | cons a as ih =>
    intro bs cs h1 h2
    cases bs with
    | nil => simp [listLexLe] at h1
    | cons b bs =>
      cases cs with
      | nil => simp [listLexLe] at h2
      | cons c cs =>
        by_cases hab : a = b <;> by_cases hbc : b = c
        · subst hab; subst hbc
          simp only [listLexLe, if_pos rfl] at h1 h2 ⊢
          exact ih bs cs h1 h2
        · subst hab
          simp only [listLexLe, if_pos rfl, if_neg hbc] at h2 ⊢
          exact h2
        · subst hbc
          simp only [listLexLe, if_pos rfl, if_neg hab] at h1 ⊢
          exact h1
        · simp only [listLexLe, if_neg hab, if_neg hbc, decide_eq_true_eq] at h1 h2
          have hac : a < c := lt_trans h1 h2
          simp [listLexLe, ne_of_lt hac, hac]

lemma listLexLe_antisymm : ∀ as bs : List Char,
    listLexLe as bs = true → listLexLe bs as = true → as = bs := by
  intro as
  induction as with
  | nil =>
    intro bs h1 h2
    cases bs with
    | nil => rfl
    | cons b bs => simp [listLexLe] at h2
  | cons a as ih =>
    intro bs h1 h2
    cases bs with
    | nil => simp [listLexLe] at h1
    | cons b bs =>
      by_cases hab : a = b
      · subst hab
        simp only [listLexLe, if_pos rfl] at h1 h2
        rw [ih bs h1 h2]
      · simp only [listLexLe, if_neg hab, if_neg (Ne.symm hab), decide_eq_true_eq] at h1 h2
        exact absurd h2 (lt_asymm h1)

instance : IsTotal String strLeRel := ⟨fun a b => listLexLe_total a.data b.data⟩

instance : IsTrans String strLeRel := ⟨fun a b c => listLexLe_trans a.data b.data c.data⟩

instance : IsAntisymm String strLeRel :=
  ⟨fun a b h1 h2 => String.ext (listLexLe_antisymm a.data b.data h1 h2)⟩

lemma sortStr_perm (l : List String) : (sortStr l).Perm l :=
  List.perm_insertionSort strLeRel l

lemma sortStr_sorted (l : List String) : List.Sorted strLeRel (sortStr l) :=
  List.sorted_insertionSort strLeRel l

/-- Any two permutation-equal lists have the same `sortStr` image: sorting
canonicalizes the unspecified directory-listing order. -/
lemma sortStr_congr_perm (l1 l2 : List String) (h : l1.Perm l2) : sortStr l1 = sortStr l2 :=
  List.eq_of_perm_of_sorted
    (((sortStr_perm l1).trans h).trans (sortStr_perm l2).symm)
    (sortStr_sorted l1) (sortStr_sorted l2)

/-! ### Prefix cancellation along a character class -/

lemma takeWhile_append_stop {α} (p : α → Bool) (d r : List α)
    (hd : ∀ c ∈ d, p c = true) (hr : ∀ c, r.head? = some c → p c = false) :
    (d ++ r).takeWhile p = d ∧ (d ++ r).dropWhile p = r := by
  constructor
  · rw [List.takeWhile_append_of_pos hd]
    cases r with
    | nil => simp
    | cons x xs =>
      rw [List.takeWhile_cons, hr x rfl]
      simp
  · rw [List.dropWhile_append_of_pos hd]
    cases r with
    | nil => simp
    | cons x xs =>
      rw [List.dropWhile_cons, hr x rfl]
      simp

/-- If two decompositions `d ++ r` agree, where each `d` consists of
characters satisfying `p` and each `r` starts with a character violating `p`
(or is empty), the decompositions agree componentwise. -/
lemma pred_prefix_cancel {α} (p : α → Bool) (d1 d2 r1 r2 : List α)
    (h1 : ∀ c ∈ d1, p c = true) (h2 : ∀ c ∈ d2, p c = true)
    (g1 : ∀ c, r1.head? = some c → p c = false)
    (g2 : ∀ c, r2.head? = some c → p c = false)
    (h : d1 ++ r1 = d2 ++ r2) : d1 = d2 ∧ r1 = r2 := by
  obtain ⟨t1, e1⟩ := takeWhile_append_stop p d1 r1 h1 g1
  obtain ⟨t2, e2⟩ := takeWhile_append_stop p d2 r2 h2 g2
  constructor
  · rw [← t1, ← t2, h]
  · rw [← e1, ← e2, h]

/-! ### Shape of the extension returned by `splitext` -/

lemma splitext_snd_shape (f : String) :
    (splitext f).2.data = [] ∨ ∃ r, (splitext f).2.data = '.' :: r := by
  unfold splitext
  cases h : f.data.reverse.dropWhile (fun c => c != '.') with
  | nil => left; simp [h]
  | cons hd tl =>
    by_cases ha : tl.any (fun c => c != '.')
    · right
      refine ⟨(f.data.reverse.takeWhile (fun c => c != '.')).reverse, ?_⟩
      simp [h, ha]
    · left
      simp [h, ha]

lemma splitext_head_not_digit (f : String) :
    ∀ c, (splitext f).2.data.head? = some c → c.isDigit = false := by
  intro c hc
  rcases splitext_snd_shape f with h | ⟨r, h⟩
  · rw [h] at hc
    simp at hc
  · rw [h] at hc
    simp only [List.head?_cons, Option.some.injEq] at hc
    rw [← hc]
    decide

lemma splitext_data_ne_dash_cons (f : String) (x : List Char) :
    (splitext f).2.data ≠ '-' :: x := by
  intro h
  rcases splitext_snd_shape f with hs | ⟨r, hs⟩
  · rw [hs] at h
    exact List.noConfusion h
  · rw [hs] at h
    simp only [List.cons.injEq] at h
    exact absurd h.1 (by decide)

/-! ### Injectivity of staged names in the counter -/

lemma pad2_data (n : Nat) : (pad2 n).data = padDigits n := rfl

lemma newName_double_data (c : Nat) (f : String) (h : is_double_page f = true) :
    (newName c f).data = padDigits c ++ '-' :: (padDigits (c + 1) ++ (splitext f).2.data) := by
  unfold newName
  rw [if_pos h, strData_append, strData_append, strData_append]
  have hdash : ("-" : String).data = ['-'] := rfl
  simp [pad2_data, hdash, List.append_assoc]

lemma newName_single_data (c : Nat) (f : String) (h : is_double_page f = false) :
    (newName c f).data = padDigits c ++ (splitext f).2.data := by
  unfold newName
  rw [if_neg (by simp [h]), strData_append]
  rfl

lemma dash_head_not_digit (x : List Char) :
    ∀ c, (List.cons '-' x).head? = some c → c.isDigit = false := by
  intro c hc
  simp only [List.head?_cons, Option.some.injEq] at hc
  rw [← hc]
  decide

lemma dash_head_not_pyDigit (x : List Char) :
    ∀ c, (List.cons '-' x).head? = some c → isPyDigit c = false := by
  intro c hc
  simp only [List.head?_cons, Option.some.injEq] at hc
  rw [← hc]
  decide

lemma digitChar_isPyDigit (m : Nat) (h : m < 10) : isPyDigit (Nat.digitChar m) = true := by
  interval_cases m <;> decide

lemma natToDigits_aux_all_pyDigit :
    ∀ fuel n, n < fuel → ∀ c ∈ natToDigits n, isPyDigit c = true := by
  intro fuel
  induction fuel with
  | zero => intro n h; exact absurd h (Nat.not_lt_zero n)
  | succ fuel ih =>
    intro n hn c hc
    rw [natToDigits_eq] at hc
    by_cases h10 : n < 10
    · rw [if_pos h10] at hc
      simp only [List.mem_singleton] at hc
      subst hc
      exact digitChar_isPyDigit n h10
    · rw [if_neg h10] at hc
      have hdiv : n / 10 < n := Nat.div_lt_self (by omega) (by omega)
      rcases List.mem_append.mp hc with h1 | h2
      · exact ih (n / 10) (by omega) c h1
      · simp only [List.mem_singleton] at h2
        subst h2
        exact digitChar_isPyDigit _ (Nat.mod_lt _ (by omega))

lemma natToDigits_all_pyDigit (n : Nat) : ∀ c ∈ natToDigits n, isPyDigit c = true :=
  natToDigits_aux_all_pyDigit (n + 1) n (Nat.lt_succ_self n)

lemma padDigits_all_pyDigit (n : Nat) : ∀ c ∈ padDigits n, isPyDigit c = true := by
  intro c hc
  unfold padDigits at hc
  by_cases h10 : n < 10
  · rw [if_pos h10] at hc
    rcases List.mem_cons.mp hc with h | h
    · subst h; decide
    · exact natToDigits_all_pyDigit n c h
  · rw [if_neg h10] at hc
    exact natToDigits_all_pyDigit n c hc

/-- Staged output names built from distinct counter values are distinct,
whatever the source filenames were. -/
lemma newName_inj (c1 c2 : Nat) (f1 f2 : String) (hne : c1 ≠ c2) :
    newName c1 f1 ≠ newName c2 f2 := by
  intro h
  have hd := congrArg String.data h
  cases hb1 : is_double_page f1 <;> cases hb2 : is_double_page f2
  · rw [newName_single_data c1 f1 hb1, newName_single_data c2 f2 hb2] at hd
    obtain ⟨hpd, _⟩ := pred_prefix_cancel Char.isDigit _ _ _ _
      (padDigits_all_digit c1) (padDigits_all_digit c2)
      (splitext_head_not_digit f1) (splitext_head_not_digit f2) hd
    exact hne (padDigits_inj c1 c2 hpd)
  · rw [newName_single_data c1 f1 hb1, newName_double_data c2 f2 hb2] at hd
    obtain ⟨_, hr⟩ := pred_prefix_cancel Char.isDigit _ _ _ _
      (padDigits_all_digit c1) (padDigits_all_digit c2)
      (splitext_head_not_digit f1) (dash_head_not_digit _) hd
    exact splitext_data_ne_dash_cons f1 _ hr
  · rw [newName_double_data c1 f1 hb1, newName_single_data c2 f2 hb2] at hd
    obtain ⟨_, hr⟩ := pred_prefix_cancel Char.isDigit _ _ _ _
      (padDigits_all_digit c1) (padDigits_all_digit c2)
      (dash_head_not_digit _) (splitext_head_not_digit f2) hd
    exact splitext_data_ne_dash_cons f2 _ hr.symm
  · rw [newName_double_data c1 f1 hb1, newName_double_data c2 f2 hb2] at hd
    obtain ⟨hpd, _⟩ := pred_prefix_cancel Char.isDigit _ _ _ _
      (padDigits_all_digit c1) (padDigits_all_digit c2)
      (dash_head_not_digit _) (dash_head_not_digit _) hd
    exact hne (padDigits_inj c1 c2 hpd)

/-! ### Renumbering engine lemmas -/

lemma renumberList_cons (c : Nat) (f : String) (fs : List String) :
    renumberList c (f :: fs) =
      (newName c f :: (renumberList (nextCounter c f) fs).1,
       (renumberList (nextCounter c f) fs).2) := by
  cases hb : is_double_page f <;> simp [renumberList, newName, nextCounter, hb]

lemma renumberList_append : ∀ (xs ys : List String) (c : Nat),
    renumberList c (xs ++ ys) =
      ((renumberList c xs).1 ++ (renumberList (renumberList c xs).2 ys).1,
       (renumberList (renumberList c xs).2 ys).2) := by
  intro xs
  induction xs with
  | nil => intro ys c; simp [renumberList]
  | cons f fs ih =>
    intro ys c
    simp only [List.cons_append, renumberList_cons, ih]

lemma renumberList_length (fs : List String) : ∀ c, (renumberList c fs).1.length = fs.length := by
  induction fs with
  | nil => intro c; rfl
  | cons f fs ih =>
    intro c
    rw [renumberList_cons]
    simp [ih]

lemma counterVals_cons (c : Nat) (f : String) (fs : List String) :
    counterVals c (f :: fs) = c :: counterVals (nextCounter c f) fs := rfl

lemma renumberList_names (fs : List String) : ∀ c,
    (renumberList c fs).1 = List.zipWith newName (counterVals c fs) fs := by
  induction fs with
  | nil => intro c; rfl
  | cons f fs ih =>
    intro c
    rw [renumberList_cons, counterVals_cons]
    simp [ih]

lemma nextCounter_ge (c : Nat) (f : String) : c + 1 ≤ nextCounter c f := by
  unfold nextCounter
  split <;> omega

lemma counterVals_lb (fs : List String) : ∀ c x, x ∈ counterVals c fs → c ≤ x := by
  induction fs with
  | nil => intro c x h; simp [counterVals] at h
  | cons f fs ih =>
    intro c x h
    rw [counterVals_cons] at h
    rcases List.mem_cons.mp h with h | h
    · omega
    · have h1 := ih (nextCounter c f) x h
      have h2 := nextCounter_ge c f
      omega

/-- The counter never decreases and never repeats: the value sequence is
strictly increasing. -/
lemma counterVals_pairwise (fs : List String) : ∀ c, (counterVals c fs).Pairwise (· < ·) := by
  induction fs with
  | nil => intro c; simp [counterVals]
  | cons f fs ih =>
    intro c
    rw [counterVals_cons]
    refine List.Pairwise.cons ?_ (ih _)
    intro x hx
    have h1 := counterVals_lb fs (nextCounter c f) x hx
    have h2 := nextCounter_ge c f
    omega

lemma renumberList_mem_names (fs : List String) : ∀ c n, n ∈ (renumberList c fs).1 →
    ∃ x f, c ≤ x ∧ n = newName x f := by
  induction fs with
  | nil => intro c n h; simp [renumberList] at h
  | cons f fs ih =>
    intro c n h
    rw [renumberList_cons] at h
    rcases List.mem_cons.mp h with h | h
    · exact ⟨c, f, le_refl c, h⟩
    · obtain ⟨x, g, hx, he⟩ := ih (nextCounter c f) n h
      have h2 := nextCounter_ge c f
      exact ⟨x, g, by omega, he⟩

/-- No staged name is ever produced twice. -/
lemma renumberList_nodup (fs : List String) : ∀ c, (renumberList c fs).1.Nodup := by
  induction fs with
  | nil => intro c; simp [renumberList]
  | cons f fs ih =>
    intro c
    rw [renumberList_cons]
    refine List.nodup_cons.mpr ⟨?_, ih _⟩
    intro hmem
    obtain ⟨x, g, hx, he⟩ := renumberList_mem_names fs (nextCounter c f) _ hmem
    have h2 := nextCounter_ge c f
    exact newName_inj c x f g (by omega) he

/-! ### The archive fold equals one renumbering pass over the page stream -/

lemma renumberFold (dirs : List (List String)) : ∀ (acc : List String) (c : Nat),
    dirs.foldl (fun acc l =>
        let p := renumberList acc.2 (imageFiles l)
        (acc.1 ++ p.1, p.2)) (acc, c)
      = (acc ++ (renumberList c (dirs.flatMap (fun l => imageFiles l))).1,
         (renumberList c (dirs.flatMap (fun l => imageFiles l))).2) := by
  induction dirs with
  | nil => intro acc c; simp [renumberList]
  | cons d dirs ih =>
    intro acc c
    rw [List.foldl_cons]
    show (dirs.foldl _ (acc ++ (renumberList c (imageFiles d)).1, (renumberList c (imageFiles d)).2)) = _
    rw [ih, List.flatMap_cons, renumberList_append]
    simp [List.append_assoc]

lemma renumberAll_eq (dirs : List (List String)) :
    renumberAll dirs = renumberList 1 (dirs.flatMap (fun l => imageFiles l)) := by
  unfold renumberAll
  rw [renumberFold]
  simp

lemma mergeOutputNames_eq (listing : List String) (contents : String → List String) :
    mergeOutputNames listing contents = (renumberList 1 (mergeStream listing contents)).1 := by
  unfold mergeOutputNames mergeStream
  rw [renumberAll_eq, List.flatMap_map]

lemma mergeOutputNames_nodup (listing : List String) (contents : String → List String) :
    (mergeOutputNames listing contents).Nodup := by
  rw [mergeOutputNames_eq]
  exact renumberList_nodup _ 1

lemma imageFiles_length (x : List String) :
    (imageFiles x).length = (x.filter isImageFile).length :=
  (sortStr_perm _).length_eq

lemma mergeOutputNames_length (listing : List String) (contents : String → List String) :
    (mergeOutputNames listing contents).length =
      ((listing.filter (fun f => strEndsWith f (".cbz"))).map
        (fun a => ((contents a).filter isImageFile).length)).sum := by
  rw [mergeOutputNames_eq, renumberList_length]
  unfold mergeStream
  rw [List.flatMap_def, List.length_flatten, List.map_map]
  have h1 : ((cbzFiles listing).map (List.length ∘ fun a => imageFiles (contents a)))
      = (cbzFiles listing).map (fun a => ((contents a).filter isImageFile).length) := by
    apply List.map_congr_left
    intro a _
    exact imageFiles_length (contents a)
  rw [h1]
  exact ((sortStr_perm _).map _).sum_eq

/-! ### Characterization of the double-spread recognizer -/

lemma matchCore_iff (cs : List Char) : matchCore cs = true ↔ specSpreadShape cs := by
  constructor
  · intro h
    unfold matchCore at h
    rcases hdw : cs.dropWhile (fun c => isPyDigit c) with _ | ⟨x, r2⟩
    · rw [hdw] at h
      simp at h
    · rw [hdw] at h
      simp only [Bool.and_eq_true, beq_iff_eq, decide_eq_true_eq] at h
      obtain ⟨hx, ⟨⟨⟨h1a, h1b⟩, h2a⟩, h2b⟩, heq⟩ := h
      subst hx
      refine ⟨cs.takeWhile (fun c => isPyDigit c), r2.takeWhile (fun c => isPyDigit c),
        ?_, ?_, h1a, h1b, ?_, h2a, h2b⟩
      · conv_lhs => rw [← List.takeWhile_append_dropWhile (fun c => isPyDigit c) cs]
        rw [hdw]
        congr 2
        conv_lhs => rw [← List.takeWhile_append_dropWhile (fun c => isPyDigit c) r2]
        rw [heq]
      · intro c hc
        exact List.mem_takeWhile_imp hc
      · intro c hc
        exact List.mem_takeWhile_imp hc
  · rintro ⟨d1, d2, hcs, hd1, hl1a, hl1b, hd2, hl2a, hl2b⟩
    subst hcs
    have hstop1 := takeWhile_append_stop (fun c => isPyDigit c) d1
      ('-' :: (d2 ++ ['.', 'j', 'p', 'g'])) hd1 (dash_head_not_pyDigit _)
    have hstop2 := takeWhile_append_stop (fun c => isPyDigit c) d2 ['.', 'j', 'p', 'g'] hd2
      (by intro c hc; simp only [List.head?_cons, Option.some.injEq] at hc; rw [← hc]; decide)
    unfold matchCore
    rw [hstop1.2, hstop1.1]
    simp [hstop2.1, hstop2.2, hl1a, hl1b, hl2a, hl2b]

lemma specSpreadShape_getLast (cs : List Char) (h : specSpreadShape cs) :
    cs.getLast? = some 'g' := by
  obtain ⟨d1, d2, hcs, _⟩ := h
  subst hcs
  have hsplit : d1 ++ '-' :: (d2 ++ ['.', 'j', 'p', 'g'])
      = (d1 ++ '-' :: (d2 ++ ['.', 'j', 'p'])) ++ ['g'] := by
    simp
  rw [hsplit, List.getLast?_concat]

/-- Full characterization of `is_double_page`: the regex core, plus Python's
`$`-before-trailing-newline behaviour. -/
lemma is_double_page_iff (s : String) :
    is_double_page s = true ↔
      (specSpreadShape s.data ∨ ∃ t, s.data = t ++ ['\n'] ∧ specSpreadShape t) := by
  unfold is_double_page
  rw [Bool.or_eq_true]
  constructor
  · rintro (h | h)
    · left
      exact (matchCore_iff _).mp h
    · right
      cases hl : s.data.getLast? with
      | none =>
        rw [hl] at h
        simp at h
      | some c =>
        rw [hl] at h
        simp only [Bool.and_eq_true, beq_iff_eq] at h
        obtain ⟨hc, hm⟩ := h
        subst hc
        have hne : s.data ≠ [] := by
          intro hh
          rw [hh] at hl
          simp at hl
        refine ⟨s.data.dropLast, ?_, (matchCore_iff _).mp hm⟩
        have hlast : s.data.getLast hne = '\n' := by
          have := List.getLast?_eq_getLast s.data hne
          rw [hl] at this
          exact (Option.some.injEq _ _).mp this.symm
        conv_lhs => rw [← List.dropLast_concat_getLast hne]
        rw [hlast]
  · rintro (h | ⟨t, ht, hspec⟩)
    · left
      exact (matchCore_iff _).mpr h
    · right
      rw [ht, List.getLast?_concat, List.dropLast_concat]
      simp only [beq_self_eq_true, Bool.true_and]
      exact (matchCore_iff _).mpr hspec

/-! ### Permutation invariance of the merge -/

lemma imageFiles_congr_perm (x y : List String) (h : x.Perm y) : imageFiles x = imageFiles y :=
  sortStr_congr_perm _ _ (h.filter _)

lemma mergeOutputNames_congr_listing (l1 l2 : List String) (contents : String → List String)
    (h : l1.Perm l2) : mergeOutputNames l1 contents = mergeOutputNames l2 contents := by
  unfold mergeOutputNames cbzFiles
  rw [sortStr_congr_perm _ _ (h.filter _)]

lemma mergeOutputNames_congr_contents (listing : List String) (c1 c2 : String → List String)
    (h : ∀ a, (c1 a).Perm (c2 a)) :
    mergeOutputNames listing c1 = mergeOutputNames listing c2 := by
  rw [mergeOutputNames_eq, mergeOutputNames_eq]
  unfold mergeStream
  have hfun : (fun a => imageFiles (c1 a)) = (fun a => imageFiles (c2 a)) :=
    funext fun a => imageFiles_congr_perm _ _ (h a)
  rw [hfun]

/-! ### Pipeline lemmas -/

lemma merge_cbz_run_cleanup_iff (e : MergeEnv) :
    (merge_cbz_run e).tempdirRemoved = true ↔ ∃ v, (merge_cbz_run e).result = Except.ok v := by
  unfold merge_cbz_run
  cases hu : unpackAll e.members (cbzFiles e.listing) with
  | error err => simp
  | ok dirs =>
    by_cases hp : e.isPdf
    · by_cases hn : (renumberAll dirs).1.isEmpty
      · simp [hp, hn]
      · simp [hp, hn]
    · simp [hp]

lemma merge_cbz_run_no_cbz (e : MergeEnv)
    (h : e.listing.filter (fun f => strEndsWith f (".cbz")) = []) :
    (e.isPdf = false → merge_cbz_run e = ⟨Except.ok [], true, true⟩)
    ∧ (e.isPdf = true → merge_cbz_run e = ⟨Except.error MergeError.emptyPdf, false, false⟩) := by
  have hcbz : cbzFiles e.listing = [] := by
    unfold cbzFiles
    rw [h]
    rfl
  unfold merge_cbz_run
  rw [hcbz]
  constructor
  · intro hp
    simp [unpackAll, renumberAll, hp]
  · intro hp
    simp [unpackAll, renumberAll, hp]

/-! ### Top-level components after extraction (for nested archive members) -/

lemma topComponent_eq_self (m : String) (h : ('/' : Char) ∉ m.data) : topComponent m = m := by
  unfold topComponent
  have hmk : m.data.takeWhile (fun c => c != '/') = m.data := by
    rw [List.takeWhile_eq_self_iff]
    intro x hx
    simp only [bne_iff_ne, ne_eq]
    intro heq
    exact h (heq ▸ hx)
  rw [hmk]

lemma extractedListing_eq_self (ms : List String)
    (h1 : ∀ m ∈ ms, ('/' : Char) ∉ m.data) (h2 : ms.Nodup) : extractedListing ms = ms := by
  unfold extractedListing
  have hmap : ms.map topComponent = ms.map (fun a => a) :=
    List.map_congr_left (fun m hm => topComponent_eq_self m (h1 m hm))
  rw [hmap, List.map_id']
  exact List.dedup_eq_self.mpr h2

/-- In a flat archive (no `/` in any member name) every listing entry is a
regular file: nothing lies strictly below any name. -/
lemma isDirEntry_flat (ms : List String) (h : ∀ m ∈ ms, ('/' : Char) ∉ m.data) :
    ∀ f, isDirEntry ms f = false := by
  intro f
  unfold isDirEntry
  rw [List.any_eq_false]
  intro m hm
  rw [topComponent_eq_self m (h m hm)]
  cases hmf : m == f <;> simp [bne, hmf]

/-- When no selected entry is a directory, the copy loop succeeds and stages
exactly what the pure renumbering pass produces. -/
lemma renumberListC_ok (isDir : String → Bool) : ∀ (fs : List String) (c : Nat),
    (∀ f ∈ fs, isDir f = false) →
    renumberListC isDir c fs = Except.ok (renumberList c fs) := by
  intro fs
  induction fs with
  | nil => intro c _; rfl
  | cons f fs ih =>
    intro c h
    have hf : isDir f = false := h f (List.mem_cons_self f fs)
    have hrest : ∀ g ∈ fs, isDir g = false := fun g hg => h g (List.mem_cons_of_mem f hg)
    cases hb : is_double_page f
    · have hrec := ih (c + 1) hrest
      simp [renumberListC, renumberList, hb, hf, hrec]
    · have hrec := ih (c + 2) hrest
      simp [renumberListC, renumberList, hb, hf, hrec]

/-- A selected directory entry anywhere in the list makes the copy loop raise
(`IsADirectoryError`): the whole pass fails. -/
lemma renumberListC_error (isDir : String → Bool) : ∀ (fs : List String) (c : Nat) (f : String),
    f ∈ fs → isDir f = true → renumberListC isDir c fs = Except.error () := by
  intro fs
  induction fs with
  | nil => intro c f h; exact absurd h (List.not_mem_nil f)
  | cons g fs ih =>
    intro c f hmem hdir
    rcases List.mem_cons.mp hmem with h | h
    · subst h
      cases hb : is_double_page f <;> simp [renumberListC, hb, hdir]
    · cases hgv : isDir g
      · cases hb : is_double_page g <;> simp [renumberListC, hb, hgv, ih _ f h hdir]
      · cases hb : is_double_page g <;> simp [renumberListC, hb, hgv]

lemma renumberArchives_ok : ∀ (dirs : List (List String)) (c : Nat),
    (∀ ms ∈ dirs, ∀ f ∈ imageFiles (extractedListing ms), isDirEntry ms f = false) →
    renumberArchives c dirs
      = Except.ok (renumberList c (dirs.flatMap (fun ms => imageFiles (extractedListing ms)))) := by
  intro dirs
  induction dirs with
  | nil => intro c _; simp [renumberArchives, renumberList]
  | cons ms rest ih =>
    intro c h
    have h1 := h ms (List.mem_cons_self ms rest)
    have h2 : ∀ ms2 ∈ rest, ∀ f ∈ imageFiles (extractedListing ms2), isDirEntry ms2 f = false :=
      fun ms2 hm => h ms2 (List.mem_cons_of_mem ms hm)
    have e1 := renumberListC_ok (fun n => isDirEntry ms n) (imageFiles (extractedListing ms)) c h1
    have e2 := ih (renumberList c (imageFiles (extractedListing ms))).2 h2
    simp only [renumberArchives, e1, e2, List.flatMap_cons, renumberList_append]

/-- For flat archives the member-level merge succeeds and equals the pure
merge over the member lists themselves. -/
lemma mergeFromMembers_flat (listing : List String) (mem : String → List String)
    (h1 : ∀ a m, m ∈ mem a → ('/' : Char) ∉ m.data) (h2 : ∀ a, (mem a).Nodup) :
    mergeFromMembers listing mem = Except.ok (mergeOutputNames listing mem) := by
  unfold mergeFromMembers
  have hok := renumberArchives_ok ((cbzFiles listing).map mem) 1 (by
    intro ms hms f hf
    obtain ⟨a, _, rfl⟩ := List.mem_map.mp hms
    exact isDirEntry_flat (mem a) (h1 a) f)
  rw [hok]
  have hfun : (fun a => imageFiles (extractedListing (mem a))) = (fun a => imageFiles (mem a)) :=
    funext fun a => by rw [extractedListing_eq_self (mem a) (h1 a) (h2 a)]
  rw [List.flatMap_map, hfun, mergeOutputNames_eq]
  rfl

/-! ## The claims -/

/-- Concrete example from §8 of the spec: `vol1.cbz` holds `01.jpg`,
`02.jpg`, `18-19.jpg` and `vol2.cbz` holds `01.jpg`, `02.jpg`. -/
def volContents : String → List String := fun a =>
  if a = "vol1.cbz" then ["01.jpg", "02.jpg", "18-19.jpg"]
  else if a = "vol2.cbz" then ["01.jpg", "02.jpg"] else []

/-- C1 counterexample: on the spec's own example input the merge does NOT
produce the output names `01.jpg, 02.jpg, 04-05.jpg, 06.jpg, 07.jpg` claimed
in §8 — the counter reaches the spread at value 3, not 4. -/
theorem c1_expected_output_refuted :
    mergeOutputNames ["vol1.cbz", "vol2.cbz"] volContents ≠
      ["01.jpg", "02.jpg", "04-05.jpg", "06.jpg", "07.jpg"] := by
  decide

/-- C1 (amended): on the spec's example input the merge produces exactly
`01.jpg, 02.jpg, 03-04.jpg, 05.jpg, 06.jpg`, in that order, the counter
taking the values 1, 2, 3, 5, 6. -/
theorem c1_example_merge :
    mergeOutputNames ["vol1.cbz", "vol2.cbz"] volContents =
      ["01.jpg", "02.jpg", "03-04.jpg", "05.jpg", "06.jpg"]
    ∧ mergeCounterVals ["vol1.cbz", "vol2.cbz"] volContents = [1, 2, 3, 5, 6] := by
  constructor
  · decide
  · decide

/-- C2: a page classified as a double spread while the counter is `c` is
emitted as the single entry `pad2 c ++ "-" ++ pad2 (c+1) ++ ext` (so the name
has the form lo-hi with hi = lo + 1, whatever the original numbers were, with
the original extension), and the rest of the run continues from counter
`c + 2`, the values `c` and `c + 1` having been consumed. -/
theorem c2_double_spread_step (c : Nat) (f : String) (fs : List String)
    (h : is_double_page f = true) :
    renumberList c (f :: fs) =
      ((pad2 c ++ "-" ++ pad2 (c + 1) ++ (splitext f).2) :: (renumberList (c + 2) fs).1,
       (renumberList (c + 2) fs).2) := by
  rw [renumberList_cons]
  unfold newName nextCounter
  rw [if_pos h, if_pos h]

/-- C2 witness: a double spread arriving at counter 3 is staged as
`03-04.jpg` and the counter continues from 5. -/
theorem c2_double_spread_step_witness :
    renumberList 3 ["18-19.jpg"] = (["03-04.jpg"], 5) :=
  (c2_double_spread_step 3 ("18-19.jpg") [] (by decide)).trans (by decide)

/-- C3: the renumbering engine starts the counter at 1 and processes the
archives in sorted name order and each archive's image files in sorted name
order (first conjunct: the whole merge is one renumbering pass, starting at
counter 1, over exactly that stream); a Single page staged at counter `c` is
named `pad2 c ++ ext` and advances the counter by exactly 1 (second
conjunct); and the result depends only on the sorted orders: it is invariant
under permutations of the directory listing and of each archive's member
listing (third and fourth conjuncts). -/
theorem c3_renumbering_order :
    (∀ (listing : List String) (contents : String → List String),
      mergeOutputNames listing contents
        = (renumberList 1 ((cbzFiles listing).flatMap (fun a => imageFiles (contents a)))).1)
    ∧ (∀ (c : Nat) (f : String) (fs : List String), is_double_page f = false →
        renumberList c (f :: fs) =
          ((pad2 c ++ (splitext f).2) :: (renumberList (c + 1) fs).1,
           (renumberList (c + 1) fs).2))
    ∧ (∀ (l1 l2 : List String) (contents : String → List String), l1.Perm l2 →
        mergeOutputNames l1 contents = mergeOutputNames l2 contents)
    ∧ (∀ (listing : List String) (c1 c2 : String → List String),
        (∀ a, (c1 a).Perm (c2 a)) →
        mergeOutputNames listing c1 = mergeOutputNames listing c2) := by
  refine ⟨?_, ?_, mergeOutputNames_congr_listing, mergeOutputNames_congr_contents⟩
  · intro listing contents
    exact mergeOutputNames_eq listing contents
  · intro c f fs h
    rw [renumberList_cons]
    unfold newName nextCounter
    rw [if_neg (by simp [h]), if_neg (by simp [h])]

/-- C3 witness: a single page at counter 1 becomes `01.png` with the counter
advancing to 2; permuting the directory listing or an archive's member
listing does not change the merge result. -/
theorem c3_renumbering_order_witness :
    renumberList 1 ["05.png"] = (["01.png"], 2)
    ∧ mergeOutputNames ["vol2.cbz", "vol1.cbz"] volContents
        = mergeOutputNames ["vol1.cbz", "vol2.cbz"] volContents
    ∧ mergeOutputNames ["vol2.cbz"] (fun _ => ["02.jpg", "01.jpg"])
        = mergeOutputNames ["vol2.cbz"] (fun _ => ["01.jpg", "02.jpg"]) := by
  refine ⟨?_, ?_, ?_⟩
  · exact (c3_renumbering_order.2.1 1 ("05.png") [] (by decide)).trans (by decide)
  · exact c3_renumbering_order.2.2.1 _ _ volContents (List.Perm.swap _ _ _)
  · exact c3_renumbering_order.2.2.2 _ _ _ (fun a => List.Perm.swap _ _ _)

/-- C4: across a whole merge the counter-value sequence is strictly
increasing (hence it never decreases and never repeats a value), the staged
output filenames contain no duplicate (the RenumberingConflict condition
never occurs), and each output name is built from its page's counter
value. -/
theorem c4_counter_monotone_names_distinct :
    ∀ (listing : List String) (contents : String → List String),
      (mergeCounterVals listing contents).Pairwise (· < ·)
      ∧ (mergeOutputNames listing contents).Nodup
      ∧ mergeOutputNames listing contents
          = List.zipWith newName (mergeCounterVals listing contents)
              (mergeStream listing contents) := by
  intro listing contents
  refine ⟨counterVals_pairwise _ 1, mergeOutputNames_nodup _ _, ?_⟩
  rw [mergeOutputNames_eq]
  exact renumberList_names _ 1

/-- C5: the number of staged output entries equals the sum over all `.cbz`
archives of the number of image entries in their extraction listings — every
page read produces exactly one output entry, none dropped or duplicated. -/
theorem c5_page_count :
    ∀ (listing : List String) (contents : String → List String),
      (mergeOutputNames listing contents).length =
        ((listing.filter (fun f => strEndsWith f (".cbz"))).map
          (fun a => ((contents a).filter isImageFile).length)).sum :=
  mergeOutputNames_length

/-- C6 counterexample: `is_double_page` accepts `"18-19.jpg\n"`, a string
that does not have the claimed shape (digits, hyphen, digits, then `.jpg`
and nothing else), because Python's `$` also matches just before a trailing
newline.  (Python's `\d` is also wider than the claim's wording suggests:
see the amended characterization.) -/
theorem c6_pattern_refuted :
    is_double_page ("18-19.jpg\n") = true ∧ ¬ specSpreadShape ("18-19.jpg\n").data := by
  constructor
  · decide
  · intro h
    have hg := specSpreadShape_getLast _ h
    have hn : ("18-19.jpg\n" : String).data.getLast? = some '\n' := by decide
    rw [hn] at hg
    exact absurd hg (by decide)

/-- C6 (amended): `is_double_page` returns true exactly on strings of the
form 2-4 decimal digits (Python's `\d`, i.e. any Unicode category-Nd digit,
not only ASCII), hyphen, 2-4 such digits, `.jpg` — either at the very end of
the string or followed by one trailing newline (Python `$` semantics).  In
particular `19-18.jpg` is accepted (no numeric range validation), a spread
name written with Arabic-Indic digits is accepted, while `.jpeg`/`.png`
spreads are classified Single; the result depends on the filename string
alone. -/
theorem c6_classifier_characterization :
    ∀ s : String,
      (is_double_page s = true ↔
        (specSpreadShape s.data ∨ ∃ t, s.data = t ++ ['\n'] ∧ specSpreadShape t))
      ∧ is_double_page ("19-18.jpg") = true
      ∧ is_double_page ("١٢-٣٤.jpg") = true
      ∧ is_double_page ("18-19.jpeg") = false
      ∧ is_double_page ("18-19.png") = false := by
  intro s
  exact ⟨is_double_page_iff s, by decide, by decide, by decide, by decide⟩

/-- C7 counterexample: when unpacking the only archive fails, the run ends in
an error and the temporary directory is NOT removed — `shutil.rmtree` is on
the success path only, there is no try/finally. -/
theorem c7_cleanup_refuted :
    (merge_cbz_run ⟨["a.cbz"], fun _ => Except.error (), false⟩).tempdirRemoved = false
    ∧ (merge_cbz_run ⟨["a.cbz"], fun _ => Except.error (), false⟩).result
        = Except.error (MergeError.badArchive ("a.cbz")) :=
  ⟨rfl, rfl⟩

/-- C7 (amended): the temporary directory is removed exactly when the run
succeeds; every failure path leaks the working storage. -/
theorem c7_cleanup_iff_success :
    ∀ e : MergeEnv, (merge_cbz_run e).tempdirRemoved = true
      ↔ ∃ v, (merge_cbz_run e).result = Except.ok v :=
  merge_cbz_run_cleanup_iff

/-- C8 counterexample: with no `.cbz` file in the input directory (CBZ mode),
the merge succeeds — no EmptyInputSet failure, the process exits zero, an
(empty) output archive is created, and the working directories were created
and removed. -/
theorem c8_empty_input_refuted :
    merge_cbz_run ⟨["notes.txt"], fun _ => Except.ok [], false⟩
      = ⟨Except.ok [], true, true⟩ :=
  rfl

/-- C8 (amended): there is no EmptyInputSet guard.  With no `.cbz` files, in
CBZ mode the run succeeds with an empty output archive (output file created,
temporary directory created and then removed, exit zero); in PDF mode it
fails with an uncaught IndexError from `images[0]` before any output file is
created, leaking the working storage.  In both modes the working storage is
created before the input set is examined. -/
theorem c8_no_cbz_behavior (e : MergeEnv)
    (h : e.listing.filter (fun f => strEndsWith f (".cbz")) = []) :
    (e.isPdf = false → merge_cbz_run e = ⟨Except.ok [], true, true⟩)
    ∧ (e.isPdf = true → merge_cbz_run e = ⟨Except.error MergeError.emptyPdf, false, false⟩) :=
  merge_cbz_run_no_cbz e h

/-- C8 witness: both modes at a concrete empty input set. -/
theorem c8_no_cbz_behavior_witness :
    merge_cbz_run ⟨[], fun _ => Except.ok [], false⟩ = ⟨Except.ok [], true, true⟩
    ∧ merge_cbz_run ⟨[], fun _ => Except.ok [], true⟩
        = ⟨Except.error MergeError.emptyPdf, false, false⟩ :=
  ⟨(c8_no_cbz_behavior ⟨[], fun _ => Except.ok [], false⟩ rfl).1 rfl,
   (c8_no_cbz_behavior ⟨[], fun _ => Except.ok [], true⟩ rfl).2 rfl⟩

/-- C9 counterexample: a nested member `sub/01.jpg` has an allow-listed
extension, yet the merge of an archive containing only that member succeeds
while staging no page at all — extraction preserves nesting and the
non-recursive directory listing shows only the directory `sub`, which the
extension filter drops. -/
theorem c9_flattening_refuted :
    mergeFromMembers ["a.cbz"] (fun _ => ["sub/01.jpg"]) = Except.ok []
    ∧ isImageFile ("sub/01.jpg") = true
    ∧ ((["sub/01.jpg"] : List String).filter isImageFile).length = 1 := by
  refine ⟨rfl, by decide, by decide⟩

/-- C9 (amended): only the top-level entries of each extraction directory are
page candidates; nested pages are never flattened into the output.  First
conjunct: when every member of every archive is at top level (no `/` in its
name, names distinct), the merge succeeds, the extraction listing is the
member list itself, and each allow-listed member contributes exactly one
page.  Second and third conjuncts: the copy loop over one extraction
directory succeeds iff no selected entry is a directory — if a nested member
makes its top-level directory name pass the image-name filter, the loop
aborts with IsADirectoryError instead of staging a page (otherwise the
directory name fails the filter and the nested member is silently lost).
Fourth conjunct: a concrete whole-merge crash on an archive whose only
member is `pic.jpg/01.jpg`. -/
theorem c9_top_level_members :
    (∀ (listing : List String) (mem : String → List String),
      (∀ a m, m ∈ mem a → ('/' : Char) ∉ m.data) →
      (∀ a, (mem a).Nodup) →
      mergeFromMembers listing mem = Except.ok (mergeOutputNames listing mem)
      ∧ (mergeOutputNames listing mem).length =
          ((listing.filter (fun f => strEndsWith f (".cbz"))).map
            (fun a => ((mem a).filter isImageFile).length)).sum)
    ∧ (∀ (ms : List String) (c : Nat),
        (∀ f ∈ imageFiles (extractedListing ms), isDirEntry ms f = false) →
        renumberListC (fun n => isDirEntry ms n) c (imageFiles (extractedListing ms))
          = Except.ok (renumberList c (imageFiles (extractedListing ms))))
    ∧ (∀ (ms : List String) (c : Nat) (f : String),
        f ∈ imageFiles (extractedListing ms) → isDirEntry ms f = true →
        renumberListC (fun n => isDirEntry ms n) c (imageFiles (extractedListing ms))
          = Except.error ())
    ∧ mergeFromMembers ["a.cbz"] (fun _ => ["pic.jpg/01.jpg"]) = Except.error () := by
  refine ⟨?_, ?_, ?_, rfl⟩
  · intro listing mem h1 h2
    exact ⟨mergeFromMembers_flat listing mem h1 h2, mergeOutputNames_length listing mem⟩
  · intro ms c h
    exact renumberListC_ok _ _ c h
  · intro ms c f hf hd
    exact renumberListC_error _ _ c f hf hd

/-- C9 witness: a flat single-member archive contributes exactly its one
image page, and the copy loop on the extraction listing of an archive whose
only member is `pic.jpg/01.jpg` fails at the directory entry `pic.jpg`. -/
theorem c9_top_level_members_witness :
    mergeFromMembers ["a.cbz"] (fun _ => ["01.jpg"])
        = Except.ok (mergeOutputNames ["a.cbz"] (fun _ => ["01.jpg"]))
    ∧ renumberListC (fun n => isDirEntry ["pic.jpg/01.jpg"] n) 1
        (imageFiles (extractedListing ["pic.jpg/01.jpg"])) = Except.error () := by
  constructor
  · exact (c9_top_level_members.1 ["a.cbz"] (fun _ => ["01.jpg"])
      (by
        intro _a m hm
        simp only [List.mem_singleton] at hm
        subst hm
        decide)
      (by
        intro _a
        show (["01.jpg"] : List String).Nodup
        decide)).1
  · exact c9_top_level_members.2.2.1 ["pic.jpg/01.jpg"] 1 ("pic.jpg") (by decide) (by decide)

/-- C10: for every counter value `lo` with `1 ≤ lo ≤ 9998`, the double-spread
name the engine would stage, `pad2 lo ++ "-" ++ pad2 (lo+1) ++ ".jpg"`, is
itself accepted by `is_double_page` — spreads in a merged archive are
re-detected as spreads when the output is merged again. -/
theorem c10_spread_names_refeed (lo : Nat) (h1 : 1 ≤ lo) (h2 : lo ≤ 9998) :
    is_double_page (pad2 lo ++ "-" ++ pad2 (lo + 1) ++ (".jpg")) = true := by
  have hm : matchCore (pad2 lo ++ "-" ++ pad2 (lo + 1) ++ (".jpg")).data = true := by
    apply (matchCore_iff _).mpr
    refine ⟨padDigits lo, padDigits (lo + 1), ?_, padDigits_all_pyDigit lo,
      padDigits_length_ge_two lo, padDigits_length_le_four lo (by omega),
      padDigits_all_pyDigit (lo + 1), padDigits_length_ge_two (lo + 1),
      padDigits_length_le_four (lo + 1) (by omega)⟩
    rw [strData_append, strData_append, strData_append]
    have hdash : ("-" : String).data = ['-'] := rfl
    have hjpg : ((".jpg" : String)).data = ['.', 'j', 'p', 'g'] := rfl
    simp [pad2_data, hdash, hjpg, List.append_assoc]
  unfold is_double_page
  rw [hm]
  rfl

/-- C10 witness: the staged spread name at counter 3 re-classifies as a
double spread. -/
theorem c10_spread_names_refeed_witness :
    is_double_page (pad2 3 ++ "-" ++ pad2 (3 + 1) ++ (".jpg")) = true :=
  c10_spread_names_refeed 3 (by decide) (by decide)

end CbzMerge
